import Mathlib

/-! Verification of the FocusFlow browser extension core: the exclusion
matcher, the shared timer state machine, the summary word-count gate and
the append-only session log protocol, modelled shallowly from
`background.js`, `home.js` and `options.js`. -/

/-! ## Timestamp serialization model

The source stores `endTime` as `endTime.toISOString()` and reads it back
with `new Date(endTimeISO)`.  `Date` is a host-platform primitive, so we
model its serialization at the level the code uses it: an injective
textual rendering of the millisecond timestamp (`dateToISOString`),
together with `parseDateMs` modelling `new Date(s).getTime()` as its
one-sided inverse, returning `none` where the host would produce an invalid
date (`isNaN(date.getTime())`). -/

def digitChar (d : Nat) : Char := Char.ofNat (48 + d)

def decDigitVal (c : Char) : Nat := c.toNat - 48

def isDecDigit (c : Char) : Bool := 48 ≤ c.toNat && c.toNat ≤ 57

def natToDecimalChars (n : Nat) : List Char :=
  if n = 0 then ['0'] else (Nat.digits 10 n).reverse.map digitChar

def parseNatDigits (l : List Char) : Option Nat :=
  if l ≠ [] ∧ l.all isDecDigit then
    some (Nat.ofDigits 10 (l.reverse.map decDigitVal))
  else none

def dateToISOString (t : Int) : String :=
  if t < 0 then String.mk ('-' :: natToDecimalChars t.natAbs)
  else String.mk (natToDecimalChars t.natAbs)

def parseDateMs (s : String) : Option Int :=
  match s.data with
  | [] => none
  | c :: rest =>
    if c = '-' then (parseNatDigits rest).map (fun n => -(n : Int))
    else (parseNatDigits (c :: rest)).map (fun n => (n : Int))

theorem digitChar_isDecDigit {d : Nat} (hd : d < 10) :
    isDecDigit (digitChar d) = true := by
  interval_cases d <;> decide

theorem decDigitVal_digitChar {d : Nat} (hd : d < 10) :
    decDigitVal (digitChar d) = d := by
  interval_cases d <;> decide

theorem natToDecimalChars_ne_nil (n : Nat) : natToDecimalChars n ≠ [] := by
  unfold natToDecimalChars
  by_cases h : n = 0
  · simp [h]
  · have hne : Nat.digits 10 n ≠ [] := Nat.digits_ne_nil_iff_ne_zero.mpr h
    simp [h, hne]

theorem natToDecimalChars_all_digits (n : Nat) :
    ∀ c ∈ natToDecimalChars n, isDecDigit c = true := by
  intro c hc
  unfold natToDecimalChars at hc
  by_cases h : n = 0
  · simp [h] at hc
    subst hc; decide
  · rw [if_neg h] at hc
    rw [List.mem_map] at hc
    obtain ⟨d, hd, rfl⟩ := hc
    rw [List.mem_reverse] at hd
    exact digitChar_isDecDigit (Nat.digits_lt_base (by norm_num) hd)

theorem parseNatDigits_natToDecimalChars (n : Nat) :
    parseNatDigits (natToDecimalChars n) = some n := by
  by_cases h : n = 0
  · subst h; decide
  · have hne : Nat.digits 10 n ≠ [] := Nat.digits_ne_nil_iff_ne_zero.mpr h
    have hlt : ∀ d ∈ Nat.digits 10 n, d < 10 :=
      fun d hd => Nat.digits_lt_base (by norm_num) hd
    have hnil : natToDecimalChars n ≠ [] := natToDecimalChars_ne_nil n
    have hall : (natToDecimalChars n).all isDecDigit = true := by
      rw [List.all_eq_true]
      exact natToDecimalChars_all_digits n
    unfold parseNatDigits
    rw [if_pos ⟨hnil, hall⟩]
    unfold natToDecimalChars
    rw [if_neg h]
    have hmap : ((Nat.digits 10 n).reverse.map digitChar).reverse.map decDigitVal
        = Nat.digits 10 n := by
      rw [← List.map_reverse, List.reverse_reverse, List.map_map]
      have hcongr : ∀ d ∈ Nat.digits 10 n, (decDigitVal ∘ digitChar) d = id d :=
        fun d hd => decDigitVal_digitChar (hlt d hd)
      rw [List.map_congr_left hcongr, List.map_id]
    rw [hmap, Nat.ofDigits_digits]

theorem parseDateMs_dateToISOString (t : Int) :
    parseDateMs (dateToISOString t) = some t := by
  by_cases ht : t < 0
  · have habs : ((t.natAbs : Int)) = -t := by omega
    unfold dateToISOString
    rw [if_pos ht]
    show parseDateMs (String.mk ('-' :: natToDecimalChars t.natAbs)) = some t
    unfold parseDateMs
    simp [parseNatDigits_natToDecimalChars, habs]
  · have habs : ((t.natAbs : Int)) = t := by omega
    unfold dateToISOString
    rw [if_neg ht]
    cases hL : natToDecimalChars t.natAbs with
    | nil => exact absurd hL (natToDecimalChars_ne_nil _)
    | cons c rest =>
      have hcd : isDecDigit c = true := by
        apply natToDecimalChars_all_digits t.natAbs
        rw [hL]; exact List.mem_cons_self c rest
      have hcne : ¬(c = '-') := by
        intro hc; subst hc; exact absurd hcd (by decide)
      show parseDateMs (String.mk (c :: rest)) = some t
      unfold parseDateMs
      simp only [hcne, if_neg hcne]
      rw [← hL, parseNatDigits_natToDecimalChars]
      simp [habs]

/-! ## Exclusion matcher (`background.js`)

`wildcardToRegex` escapes every regex metacharacter except `*`, replaces
each `*` by `.*` and anchors the whole string with the case-insensitive
flag.  The host `RegExp` engine is modelled by `rmatch`, a whole-string
matcher for the fragment of regexes this pipeline can produce (escaped
literals, `.` and `.*`); `globMatch` is the glob semantics the spec
describes, and the two are proved to coincide on the compiled pattern. -/

def regexMetaChars : List Char :=
  ['.', '+', '?', '^', '$', Char.ofNat 123, Char.ofNat 125,
   '(', ')', '|', '[', ']', '\\']

def escapeRegexChars : List Char → List Char
  | [] => []
  | c :: cs =>
    if c ∈ regexMetaChars then '\\' :: c :: escapeRegexChars cs
    else c :: escapeRegexChars cs

def starToDotStar : List Char → List Char
  | [] => []
  | c :: cs =>
    if c = '*' then '.' :: '*' :: starToDotStar cs else c :: starToDotStar cs

inductive RTok where
  | lit (c : Char)
  | anychar
  | anyseq
deriving DecidableEq, Repr

def regexTokens : List Char → List RTok
  | [] => []
  | [c] => if c = '.' then [RTok.anychar] else [RTok.lit c]
  | c :: d :: cs =>
    if c = '\\' then RTok.lit d :: regexTokens cs
    else if c = '.' ∧ d = '*' then RTok.anyseq :: regexTokens cs
    else if c = '.' then RTok.anychar :: regexTokens (d :: cs)
    else RTok.lit c :: regexTokens (d :: cs)

def charMatches (c d : Char) : Bool := c.toLower == d.toLower

def rmatch : List RTok → List Char → Bool
  | [], s => s.isEmpty
  | RTok.lit c :: ts, s =>
    match s with
    | [] => false
    | d :: ds => charMatches c d && rmatch ts ds
  | RTok.anychar :: ts, s =>
    match s with
    | [] => false
    | _ :: ds => rmatch ts ds
  | RTok.anyseq :: ts, s => s.tails.any (fun suffix => rmatch ts suffix)

def wildcardToRegex (wildcard : String) : List RTok :=
  regexTokens (starToDotStar (escapeRegexChars wildcard.data))

def regexTest (toks : List RTok) (s : String) : Bool := rmatch toks s.data

def beginsWithChars : List Char → List Char → Bool
  | _, [] => true
  | [], _ :: _ => false
  | c :: cs, d :: ds => c == d && beginsWithChars cs ds

def includesChars : List Char → List Char → Bool
  | [], needle => needle.isEmpty
  | c :: cs, needle => beginsWithChars (c :: cs) needle || includesChars cs needle

def strIncludes (s sub : String) : Bool := includesChars s.data sub.data

def strStartsWith (s pre : String) : Bool := beginsWithChars s.data pre.data

def strEq (s t : String) : Bool := s.data == t.data

def isUrlBlockable (extensionId : String) (url : String)
    (excludedUrls : List String) : Bool :=
  let isChromeInternal := strStartsWith url "chrome://"
  let isExtensionPage := strIncludes url extensionId
  let isNewTabPage := strEq url "chrome://newtab/"
  let isWebPage := strStartsWith url "http://" || strStartsWith url "https://"
  if isChromeInternal || isExtensionPage || isNewTabPage || !isWebPage then
    false
  else if excludedUrls.any (fun wildcard => regexTest (wildcardToRegex wildcard) url) then
    false
  else
    true

/-- Glob semantics as the spec words them: `*` matches any sequence,
every other character matches itself case-insensitively, whole-string
anchored. -/
def globMatch : List Char → List Char → Bool
  | [], s => s.isEmpty
  | c :: ps, s =>
    if c = '*' then s.tails.any (fun suffix => globMatch ps suffix)
    else
      match s with
      | [] => false
      | d :: ds => charMatches c d && globMatch ps ds

def globToks (p : List Char) : List RTok :=
  p.map (fun c => if c = '*' then RTok.anyseq else RTok.lit c)

theorem globToks_cons (c : Char) (cs : List Char) :
    globToks (c :: cs)
      = (if c = '*' then RTok.anyseq else RTok.lit c) :: globToks cs := rfl

theorem escapeRegexChars_cons_meta {c : Char} (h : c ∈ regexMetaChars)
    (cs : List Char) :
    escapeRegexChars (c :: cs) = '\\' :: c :: escapeRegexChars cs := by
  simp [escapeRegexChars, h]

theorem escapeRegexChars_cons_nonmeta {c : Char} (h : c ∉ regexMetaChars)
    (cs : List Char) :
    escapeRegexChars (c :: cs) = c :: escapeRegexChars cs := by
  simp [escapeRegexChars, h]

theorem starToDotStar_cons_star (cs : List Char) :
    starToDotStar ('*' :: cs) = '.' :: '*' :: starToDotStar cs := by
  simp [starToDotStar]

theorem starToDotStar_cons_ne {c : Char} (h : ¬(c = '*')) (cs : List Char) :
    starToDotStar (c :: cs) = c :: starToDotStar cs := by
  simp [starToDotStar, h]

theorem regexTokens_backslash (d : Char) (cs : List Char) :
    regexTokens ('\\' :: d :: cs) = RTok.lit d :: regexTokens cs := by
  simp [regexTokens]

theorem regexTokens_dotstar (cs : List Char) :
    regexTokens ('.' :: '*' :: cs) = RTok.anyseq :: regexTokens cs := by
  simp [regexTokens]

theorem regexTokens_plain_cons {c : Char} (hb : ¬(c = '\\')) (hd : ¬(c = '.'))
    (x : Char) (cs : List Char) :
    regexTokens (c :: x :: cs) = RTok.lit c :: regexTokens (x :: cs) := by
  simp [regexTokens, hb, hd]

theorem regexTokens_single {c : Char} (hd : ¬(c = '.')) :
    regexTokens [c] = [RTok.lit c] := by
  simp [regexTokens, hd]

theorem regexTokens_pipeline (p : List Char) :
    regexTokens (starToDotStar (escapeRegexChars p)) = globToks p := by
  induction p with
  | nil => rfl
  | cons c cs ih =>
    by_cases hstar : c = '*'
    · subst hstar
      rw [escapeRegexChars_cons_nonmeta (by decide), starToDotStar_cons_star,
        regexTokens_dotstar, ih]
      simp [globToks]
    · by_cases hm : c ∈ regexMetaChars
      · rw [escapeRegexChars_cons_meta hm,
          starToDotStar_cons_ne (by decide), starToDotStar_cons_ne hstar,
          regexTokens_backslash, ih]
        simp [globToks, hstar]
      · have hdot : ¬(c = '.') := by
          intro h; subst h; exact hm (by decide)
        have hbs : ¬(c = '\\') := by
          intro h; subst h; exact hm (by decide)
        rw [escapeRegexChars_cons_nonmeta hm, starToDotStar_cons_ne hstar]
        cases hX : starToDotStar (escapeRegexChars cs) with
        | nil =>
          rw [hX] at ih
          rw [regexTokens_single hdot, globToks_cons, if_neg hstar, ← ih]
          rfl
        | cons x xs =>
          rw [regexTokens_plain_cons hbs hdot, ← hX, ih, globToks_cons,
            if_neg hstar]

theorem rmatch_globToks (p : List Char) : ∀ s : List Char,
    rmatch (globToks p) s = globMatch p s := by
  induction p with
  | nil => intro s; rfl
  | cons c ps ih =>
    intro s
    rw [globToks_cons, globMatch.eq_def]
    by_cases hc : c = '*'
    · simp only [if_pos hc]
      show (s.tails.any fun suffix => rmatch (globToks ps) suffix) = _
      simp only [ih]
    · simp only [if_neg hc]
      cases s with
      | nil => rfl
      | cons d ds =>
        show (charMatches c d && rmatch (globToks ps) ds) = _
        rw [ih]

/-- C1: `isUrlBlockable` returns false for chrome-internal pages, the
extension's own page, the new-tab page and non-http(s) URLs; for every
other URL it returns false exactly when the URL matches some pattern of
the exclusion list under glob semantics (`globMatch`: regex
metacharacters inert, `*` matching any sequence, whole-string anchored,
case-insensitive), and true otherwise.  In particular
`chrome://extensions/` is never blockable, while `http://example.com` is
blockable under the empty list and not blockable under
`["*example.com*"]`. -/
theorem isUrlBlockable_spec (extId url : String) (ps : List String) :
    ((strStartsWith url "chrome://" || strIncludes url extId
        || strEq url "chrome://newtab/"
        || !(strStartsWith url "http://" || strStartsWith url "https://")) = true →
      isUrlBlockable extId url ps = false)
  ∧ ((strStartsWith url "chrome://" || strIncludes url extId
        || strEq url "chrome://newtab/"
        || !(strStartsWith url "http://" || strStartsWith url "https://")) = false →
      (isUrlBlockable extId url ps = false
        ↔ ∃ p ∈ ps, globMatch p.data url.data = true))
  ∧ isUrlBlockable extId "chrome://extensions/" ps = false
  ∧ (strIncludes "http://example.com" extId = false →
      isUrlBlockable extId "http://example.com" [] = true)
  ∧ (strIncludes "http://example.com" extId = false →
      isUrlBlockable extId "http://example.com" ["*example.com*"] = false) := by
  have key : ∀ w : String,
      regexTest (wildcardToRegex w) url = globMatch w.data url.data := by
    intro w
    unfold regexTest wildcardToRegex
    rw [regexTokens_pipeline, rmatch_globToks]
  refine ⟨?_, ?_, ?_, ?_, ?_⟩
  · intro h
    simp only [isUrlBlockable]
    rw [if_pos h]
  · intro h
    have hite : isUrlBlockable extId url ps
        = (if ps.any (fun wildcard => regexTest (wildcardToRegex wildcard) url)
            then false else true) := by
      simp only [isUrlBlockable]
      rw [if_neg (by rw [h]; decide)]
    rw [hite]
    by_cases hany :
        (ps.any fun wildcard => regexTest (wildcardToRegex wildcard) url) = true
    · rw [if_pos hany]
      refine ⟨fun _ => ?_, fun _ => rfl⟩
      rw [List.any_eq_true] at hany
      obtain ⟨w, hw, hm⟩ := hany
      exact ⟨w, hw, (key w) ▸ hm⟩
    · rw [if_neg hany]
      refine ⟨fun htf => absurd htf (by simp), ?_⟩
      rintro ⟨w, hw, hg⟩
      exact absurd (List.any_eq_true.mpr ⟨w, hw, (key w).symm ▸ hg⟩) hany
  · have h1 : (strStartsWith "chrome://extensions/" "chrome://"
        || strIncludes "chrome://extensions/" extId
        || strEq "chrome://extensions/" "chrome://newtab/"
        || !(strStartsWith "chrome://extensions/" "http://"
              || strStartsWith "chrome://extensions/" "https://")) = true := by
      rw [show strStartsWith "chrome://extensions/" "chrome://" = true from by decide]
      simp
    simp only [isUrlBlockable]
    rw [if_pos h1]
  · intro hext
    have hcond : (strStartsWith "http://example.com" "chrome://"
        || strIncludes "http://example.com" extId
        || strEq "http://example.com" "chrome://newtab/"
        || !(strStartsWith "http://example.com" "http://"
              || strStartsWith "http://example.com" "https://")) = false := by
      rw [hext, show strStartsWith "http://example.com" "chrome://" = false from by decide,
        show strEq "http://example.com" "chrome://newtab/" = false from by decide,
        show strStartsWith "http://example.com" "http://" = true from by decide]
      simp
    simp only [isUrlBlockable]
    rw [if_neg (by rw [hcond]; decide), if_neg (by simp)]
  · intro hext
    have hcond : (strStartsWith "http://example.com" "chrome://"
        || strIncludes "http://example.com" extId
        || strEq "http://example.com" "chrome://newtab/"
        || !(strStartsWith "http://example.com" "http://"
              || strStartsWith "http://example.com" "https://")) = false := by
      rw [hext, show strStartsWith "http://example.com" "chrome://" = false from by decide,
        show strEq "http://example.com" "chrome://newtab/" = false from by decide,
        show strStartsWith "http://example.com" "http://" = true from by decide]
      simp
    have hany : (["*example.com*"].any
        fun wildcard => regexTest (wildcardToRegex wildcard) "http://example.com") = true := by
      decide
    simp only [isUrlBlockable]
    rw [if_neg (by rw [hcond]; decide), if_pos hany]

theorem isUrlBlockable_spec_witness :
    isUrlBlockable "abcdefgh" "http://example.com" [] = true
  ∧ isUrlBlockable "abcdefgh" "http://example.com" ["*example.com*"] = false
  ∧ isUrlBlockable "abcdefgh" "https://mail.google.com/inbox" ["*google.com*"] = false := by
  refine ⟨(isUrlBlockable_spec "abcdefgh" "http://example.com" []).2.2.2.1 (by decide),
    (isUrlBlockable_spec "abcdefgh" "http://example.com"
      ["*example.com*"]).2.2.2.2 (by decide), ?_⟩
  have h := (isUrlBlockable_spec "abcdefgh" "https://mail.google.com/inbox"
    ["*google.com*"]).2.1 (by decide)
  exact h.mpr ⟨"*google.com*", by decide, by decide⟩

/-! ## Shared timer state (`chrome.storage.local`)

The durable key-value store is modelled as a record of the keys this
extension uses; a `chrome.storage.local.set` call updates exactly the
fields named in it.  The JS value `null` for `endTime`/`sessionId` is
`none`. -/

structure StorageState where
  timerState : String
  endTime : Option String
  duration : Nat
  sessionId : Option String
  currentSummary : String
  currentNote : String
  excludedUrls : List String
deriving DecidableEq, Repr

/-! ## Background guard (`background.js`) -/

/-- Reasons the platform can fire the installed event with; the source
handler takes no details argument, so it never inspects them. -/
inductive InstalledReason where
  | install
  | update
  | chromeUpdate
  | sharedModuleUpdate
deriving DecidableEq, Repr

/-- `handleInstallation`: a single `chrome.storage.local.set` writing the
default timer-state keys; keys outside the call are untouched. -/
def handleInstallation (s : StorageState) : StorageState :=
  { s with timerState := "start", endTime := none, duration := 0 }

/-- The background script registers `handleInstallation` as the
`chrome.runtime.onInstalled` listener, which runs for every installed
event whatever its reason. -/
def onInstalledEvent (reason : InstalledReason) (s : StorageState) :
    StorageState :=
  handleInstallation s

/-! ## Timer controller (`home.js`) -/

/-- `startTimer`: `endTime = now + minutes·60·1000` serialized, a fresh
session id, summary cleared, all in one storage update. -/
def startTimer (s : StorageState) (nowMs : Int) (durationInMinutes : Nat)
    (newSessionId : String) : StorageState :=
  { s with
    timerState := "running"
    endTime := some (dateToISOString (nowMs + durationInMinutes * 60 * 1000))
    duration := durationInMinutes
    sessionId := some newSessionId
    currentSummary := "" }

/-- Remaining time as a countdown tick computes it: `endTime - now` from
the parsed stored `endTime`. -/
def remainingMs (s : StorageState) (nowMs : Int) : Option Int :=
  (s.endTime.bind parseDateMs).map (fun e => e - nowMs)

/-- `resetToStartState`: one storage update clearing the session keys. -/
def resetToStartState (s : StorageState) : StorageState :=
  { s with
    timerState := "start"
    endTime := none
    duration := 0
    sessionId := none
    currentSummary := "" }

/-- Effects of one tick of `startCountdown`'s interval: the
possibly-updated store, the timer display, the emitted runtime messages
and whether the interval was cancelled. -/
structure TickEffects where
  state : StorageState
  display : String
  signals : List String
  cancelled : Bool
deriving DecidableEq, Repr

def padTwo (n : Int) : String :=
  let s := toString n
  if s.length < 2 then "0" ++ s else s

def formatRemaining (timeLeft : Int) : String :=
  let minutes := (timeLeft % (1000 * 60 * 60)) / (1000 * 60)
  let seconds := (timeLeft % (1000 * 60)) / 1000
  padTwo minutes ++ ":" ++ padTwo seconds

/-- One tick of the countdown interval: recompute `timeLeft` from the
captured `endTime`; when `timeLeft ≤ 0` cancel the interval, show
`00:00`, write `phase = end` (that one key only) and send the one-shot
`timerFinished` message. -/
def countdownTick (s : StorageState) (endTimeMs nowMs : Int) : TickEffects :=
  let timeLeft := endTimeMs - nowMs
  if timeLeft ≤ 0 then
    { state := { s with timerState := "end" }
      display := "00:00"
      signals := ["timerFinished"]
      cancelled := true }
  else
    { state := s
      display := formatRemaining timeLeft
      signals := []
      cancelled := false }

/-- Result of entering `startCountdown` before any interval tick runs:
an unparseable `endTime` shows an error, resets to the start state and
starts no interval. -/
structure CountdownStart where
  state : StorageState
  errorShown : Bool
  tickStarted : Bool
deriving DecidableEq, Repr

def startCountdown (s : StorageState) (endTimeISO : String) : CountdownStart :=
  match parseDateMs endTimeISO with
  | none =>
    { state := resetToStartState s, errorShown := true, tickStarted := false }
  | some _ =>
    { state := s, errorShown := false, tickStarted := true }

/-- C2: for a duration `d` from the allowed set, `startTimer` is a single
state update setting `phase = running`, `endTime` to the serialized
`now + d` minutes, `duration = d`, the freshly generated session id
(distinct from the previous one) and an empty `currentSummary`, leaving
the other stored keys unchanged; re-reading the stored state at any later
instant derives the remaining time `(now + d·60000) - later` purely from
the stored `endTime`. -/
theorem startTimer_spec (s : StorageState) (nowMs : Int) (d : Nat)
    (sid : String) (hd : d ∈ [1, 25, 35, 45, 55])
    (hfresh : some sid ≠ s.sessionId) :
    (startTimer s nowMs d sid).timerState = "running"
  ∧ (startTimer s nowMs d sid).endTime
      = some (dateToISOString (nowMs + d * 60 * 1000))
  ∧ (startTimer s nowMs d sid).duration = d
  ∧ (startTimer s nowMs d sid).sessionId = some sid
  ∧ (startTimer s nowMs d sid).sessionId ≠ s.sessionId
  ∧ (startTimer s nowMs d sid).currentSummary = ""
  ∧ (startTimer s nowMs d sid).currentNote = s.currentNote
  ∧ (startTimer s nowMs d sid).excludedUrls = s.excludedUrls
  ∧ ∀ laterMs : Int, remainingMs (startTimer s nowMs d sid) laterMs
      = some (nowMs + d * 60 * 1000 - laterMs) := by
  refine ⟨rfl, rfl, rfl, rfl, hfresh, rfl, rfl, rfl, ?_⟩
  intro laterMs
  unfold remainingMs startTimer
  simp [parseDateMs_dateToISOString]

theorem startTimer_spec_witness :
    (startTimer ⟨"start", none, 0, none, "", "note", ["*x*"]⟩
        1000 25 "sid-1").timerState = "running"
  ∧ remainingMs (startTimer ⟨"start", none, 0, none, "", "note", ["*x*"]⟩
        1000 25 "sid-1") 500000
      = some (1000 + 25 * 60 * 1000 - 500000) := by
  have h := startTimer_spec ⟨"start", none, 0, none, "", "note", ["*x*"]⟩
    1000 25 "sid-1" (by decide) (by decide)
  exact ⟨h.1, h.2.2.2.2.2.2.2.2 500000⟩

/-- C3: a countdown tick observing remaining time ≤ 0 cancels its
interval, writes `phase = end` touching no other state key, and emits
one `timerFinished` signal; performing the expiry step again on the
resulting state (for instance from a second controller instance) leaves
every state key unchanged — phase stays `end` — with only the duplicate
notification signal as extra effect. -/
theorem countdownTick_expiry (s : StorageState) (endTimeMs nowMs : Int)
    (h : endTimeMs - nowMs ≤ 0) :
    (countdownTick s endTimeMs nowMs).state = { s with timerState := "end" }
  ∧ (countdownTick s endTimeMs nowMs).signals = ["timerFinished"]
  ∧ (countdownTick s endTimeMs nowMs).cancelled = true
  ∧ (countdownTick s endTimeMs nowMs).state.endTime = s.endTime
  ∧ (countdownTick s endTimeMs nowMs).state.duration = s.duration
  ∧ (countdownTick s endTimeMs nowMs).state.sessionId = s.sessionId
  ∧ (countdownTick s endTimeMs nowMs).state.currentSummary = s.currentSummary
  ∧ (countdownTick s endTimeMs nowMs).state.currentNote = s.currentNote
  ∧ (countdownTick s endTimeMs nowMs).state.excludedUrls = s.excludedUrls
  ∧ ∀ nowMs2 : Int, endTimeMs - nowMs2 ≤ 0 →
      (countdownTick (countdownTick s endTimeMs nowMs).state
          endTimeMs nowMs2).state
        = (countdownTick s endTimeMs nowMs).state
      ∧ (countdownTick (countdownTick s endTimeMs nowMs).state
          endTimeMs nowMs2).signals = ["timerFinished"] := by
  have e1 : countdownTick s endTimeMs nowMs
      = { state := { s with timerState := "end" }
          display := "00:00"
          signals := ["timerFinished"]
          cancelled := true } := by
    simp only [countdownTick]
    rw [if_pos h]
  refine ⟨by rw [e1], by rw [e1], by rw [e1], by rw [e1], by rw [e1],
    by rw [e1], by rw [e1], by rw [e1], by rw [e1], ?_⟩
  intro nowMs2 h2
  have e2 : countdownTick { s with timerState := "end" } endTimeMs nowMs2
      = { state := { { s with timerState := "end" } with timerState := "end" }
          display := "00:00"
          signals := ["timerFinished"]
          cancelled := true } := by
    simp only [countdownTick]
    rw [if_pos h2]
  rw [e1]
  exact ⟨by rw [e2], by rw [e2]⟩

theorem countdownTick_expiry_witness :
    (countdownTick ⟨"running", some "600000", 25, some "sid-2", "", "n", []⟩
        600000 600000).state
      = { timerState := "end", endTime := some "600000", duration := 25,
          sessionId := some "sid-2", currentSummary := "", currentNote := "n",
          excludedUrls := [] }
  ∧ (countdownTick ⟨"running", some "600000", 25, some "sid-2", "", "n", []⟩
        600000 600000).signals = ["timerFinished"] := by
  have h := countdownTick_expiry
    ⟨"running", some "600000", 25, some "sid-2", "", "n", []⟩
    600000 600000 (by decide)
  exact ⟨h.1, h.2.1⟩

/-- C4 (counterexample): the installed-event listener resets a running
timer state even when the event reason is an extension update rather
than a fresh install, so the stored state is not left unchanged on a
non-install installed event. -/
theorem onInstalledEvent_update_cex :
    onInstalledEvent InstalledReason.update
        ⟨"running", some "600000", 25, some "sid-7", "", "", []⟩
      ≠ ⟨"running", some "600000", 25, some "sid-7", "", "", []⟩ := by
  decide

/-- C4 (amended): the installation handler writes the default timer
state (`phase = start`, `endTime = null`, `duration = 0`) on every
installed event regardless of its reason, leaving the keys outside the
write call (`sessionId`, `currentSummary`, `currentNote`,
`excludedUrls`) unchanged; the write does not depend on whether the
event is a fresh install. -/
theorem onInstalledEvent_spec (reason : InstalledReason) (s : StorageState) :
    onInstalledEvent reason s
      = { s with timerState := "start", endTime := none, duration := 0 }
  ∧ (onInstalledEvent reason s).sessionId = s.sessionId
  ∧ (onInstalledEvent reason s).currentSummary = s.currentSummary
  ∧ (onInstalledEvent reason s).currentNote = s.currentNote
  ∧ (onInstalledEvent reason s).excludedUrls = s.excludedUrls
  ∧ onInstalledEvent reason s = onInstalledEvent InstalledReason.install s :=
  ⟨rfl, rfl, rfl, rfl, rfl, rfl⟩

/-- C8: from a stored state in phase `end`, `resetToStartState` sets
`phase = start` and clears `endTime`, `duration`, `sessionId` and
`currentSummary`, leaving every other stored key — `currentNote` and the
`excludedUrls` exclusion list — unchanged. -/
theorem resetToStartState_spec (s : StorageState) (hs : s.timerState = "end") :
    (resetToStartState s).timerState = "start"
  ∧ (resetToStartState s).endTime = none
  ∧ (resetToStartState s).duration = 0
  ∧ (resetToStartState s).sessionId = none
  ∧ (resetToStartState s).currentSummary = ""
  ∧ (resetToStartState s).currentNote = s.currentNote
  ∧ (resetToStartState s).excludedUrls = s.excludedUrls :=
  ⟨rfl, rfl, rfl, rfl, rfl, rfl, rfl⟩

theorem resetToStartState_spec_witness :
    (resetToStartState
        ⟨"end", some "1000", 25, some "sid", "many words", "keep", ["*a*"]⟩).currentNote
      = "keep"
  ∧ (resetToStartState
        ⟨"end", some "1000", 25, some "sid", "many words", "keep", ["*a*"]⟩).excludedUrls
      = ["*a*"]
  ∧ (resetToStartState
        ⟨"end", some "1000", 25, some "sid", "many words", "keep", ["*a*"]⟩).timerState
      = "start" := by
  have h := resetToStartState_spec
    ⟨"end", some "1000", 25, some "sid", "many words", "keep", ["*a*"]⟩ rfl
  exact ⟨h.2.2.2.2.2.1, h.2.2.2.2.2.2, h.1⟩

/-- C9: while the stored phase is `running`, a stored `endTime` that
does not parse as a timestamp makes `startCountdown` show a user-visible
error, force the state back to `start` through the reset operation
(clearing the session keys, preserving the rest) and start no countdown
interval. -/
theorem startCountdown_invalid_endTime (s : StorageState) (iso : String)
    (hrun : s.timerState = "running") (hbad : parseDateMs iso = none) :
    (startCountdown s iso).errorShown = true
  ∧ (startCountdown s iso).tickStarted = false
  ∧ (startCountdown s iso).state = resetToStartState s
  ∧ (startCountdown s iso).state.timerState = "start"
  ∧ (startCountdown s iso).state.endTime = none
  ∧ (startCountdown s iso).state.sessionId = none
  ∧ (startCountdown s iso).state.currentNote = s.currentNote
  ∧ (startCountdown s iso).state.excludedUrls = s.excludedUrls := by
  unfold startCountdown
  rw [hbad]
  exact ⟨rfl, rfl, rfl, rfl, rfl, rfl, rfl, rfl⟩

theorem startCountdown_invalid_endTime_witness :
    (startCountdown ⟨"running", some "garbage", 25, some "sid", "", "n", []⟩
        "garbage").tickStarted = false
  ∧ (startCountdown ⟨"running", some "garbage", 25, some "sid", "", "n", []⟩
        "garbage").state.timerState = "start"
  ∧ (startCountdown ⟨"running", some "garbage", 25, some "sid", "", "n", []⟩
        "garbage").errorShown = true := by
  have h := startCountdown_invalid_endTime
    ⟨"running", some "garbage", 25, some "sid", "", "n", []⟩ "garbage"
    rfl (by decide)
  exact ⟨h.2.1, h.2.2.2.1, h.1⟩

/-! ## Summary word-count gate (`home.js`) -/

/-- ASCII whitespace as matched by the `trim` and the split on one or
more whitespace characters in `validateSummary`. -/
def isJsWhitespace (c : Char) : Bool :=
  c = ' ' || c = '\t' || c = '\n' || c = '\r'
    || c = Char.ofNat 11 || c = Char.ofNat 12

def trimChars (l : List Char) : List Char :=
  ((l.dropWhile isJsWhitespace).reverse.dropWhile isJsWhitespace).reverse

/-- Accumulating pass behind `summaryWords`; `acc` holds the reversed
current token. -/
def wsTokens : List Char → List Char → List (List Char)
  | [], acc => if acc.isEmpty then [] else [acc.reverse]
  | c :: cs, acc =>
    if isJsWhitespace c then
      if acc.isEmpty then wsTokens cs [] else acc.reverse :: wsTokens cs []
    else wsTokens cs (c :: acc)

/-- The token list of `text.trim().split(regex of one or more whitespace
characters).filter(Boolean)`: the maximal non-whitespace runs. -/
def summaryWords (text : String) : List (List Char) := wsTokens text.data []

structure SummaryUI where
  value : String
  submitDisabled : Bool
deriving DecidableEq, Repr

/-- `validateSummary`: count the whitespace-delimited tokens of the
summary text and enable the submit control exactly when the count
reaches `MIN_SUMMARY_WORDS = 50`. -/
def validateSummary (ui : SummaryUI) : SummaryUI :=
  let wordCount := (summaryWords ui.value).length
  if wordCount ≥ 50 then { ui with submitDisabled := false }
  else { ui with submitDisabled := true }

/-- The `CURRENT_SUMMARY` branch of `handleStorageChange`: adopt the
remote value (`newValue` defaulted to the empty string) and re-run
`validateSummary` when it differs from the locally displayed one. -/
def handleSummaryChange (ui : SummaryUI) (newValue : Option String) :
    SummaryUI :=
  let newText := newValue.getD ""
  if ui.value ≠ newText then validateSummary { ui with value := newText }
  else ui

/-- C7: the submit control is enabled iff the summary text has at least
50 whitespace-delimited tokens — 49 tokens disable it, 50 enable it —
and the storage-change path computes the same gate state for the same
text as the local-edit path (assuming the displayed gate is consistent
with the displayed text, which every `validateSummary` run establishes). -/
theorem wordCountGate (t : String) (ui : SummaryUI)
    (hinv : ui.submitDisabled = decide ((summaryWords ui.value).length < 50)) :
    ((validateSummary { ui with value := t }).submitDisabled = false
      ↔ 50 ≤ (summaryWords t).length)
  ∧ ((summaryWords t).length = 49 →
      (validateSummary { ui with value := t }).submitDisabled = true)
  ∧ ((summaryWords t).length = 50 →
      (validateSummary { ui with value := t }).submitDisabled = false)
  ∧ (handleSummaryChange ui (some t)).value = t
  ∧ (handleSummaryChange ui (some t)).submitDisabled
      = (validateSummary { ui with value := t }).submitDisabled := by
  have hval : ∀ u : SummaryUI,
      (validateSummary u).submitDisabled
        = decide ((summaryWords u.value).length < 50) := by
    intro u
    simp only [validateSummary]
    split <;> rename_i hge <;> simp <;> omega
  have hvv : ∀ u : SummaryUI, (validateSummary u).value = u.value := by
    intro u
    simp only [validateSummary]
    split <;> rfl
  have hv := hval { ui with value := t }
  refine ⟨?_, ?_, ?_, ?_, ?_⟩
  · rw [hv]
    simp
  · intro h49
    rw [hv]
    simp [h49]
  · intro h50
    rw [hv]
    simp [h50]
  · simp only [handleSummaryChange, Option.getD_some]
    by_cases hne : ui.value ≠ t
    · rw [if_pos hne, hvv]
    · rw [if_neg hne]
      exact not_ne_iff.mp hne
  · simp only [handleSummaryChange, Option.getD_some]
    by_cases hne : ui.value ≠ t
    · rw [if_pos hne]
    · rw [if_neg hne]
      have heq : ui.value = t := not_ne_iff.mp hne
      rw [hv, hinv, heq]

theorem wordCountGate_witness :
    (validateSummary { value := "w w w w w w w w w w w w w w w w w w w w w w w w w w w w w w w w w w w w w w w w w w w w w w w w w w", submitDisabled := true }).submitDisabled
      = false
  ∧ (validateSummary { value := "w w w w w w w w w w w w w w w w w w w w w w w w w w w w w w w w w w w w w w w w w w w w w w w w w", submitDisabled := true }).submitDisabled
      = true
  ∧ (handleSummaryChange { value := "", submitDisabled := true }
        (some "w w w w w w w w w w w w w w w w w w w w w w w w w w w w w w w w w w w w w w w w w w w w w w w w w w")).submitDisabled = false := by
  have h50 := wordCountGate "w w w w w w w w w w w w w w w w w w w w w w w w w w w w w w w w w w w w w w w w w w w w w w w w w w" (SummaryUI.mk "" true) (by decide)
  have h49 := wordCountGate "w w w w w w w w w w w w w w w w w w w w w w w w w w w w w w w w w w w w w w w w w w w w w w w w w" (SummaryUI.mk "" true) (by decide)
  exact ⟨h50.2.2.1 (by decide), h49.2.1 (by decide),
    h50.2.2.2.2.trans (h50.2.2.1 (by decide))⟩

/-! ## Session log store (`home.js`)

The log file holds one JSON object per line.  `JSON.parse` and
`JSON.stringify` are host primitives; entries are modelled as parsed
objects — key-value lists preserving key order, tolerating unknown
fields — and line (de)serialization appears as a codec pair `ser`/`par`
constrained by exactly what the host guarantees: non-empty single-line
output whose first and last characters are braces, and
parse-of-stringify identity. -/

inductive JVal where
  | str (s : String)
  | num (n : Int)
  | null
deriving DecidableEq, Repr

abbrev JObj := List (String × JVal)

/-- Property read `obj.k` on a parsed JSON object. -/
def getField : JObj → String → Option JVal
  | [], _ => none
  | (k1, v1) :: rest, k => if k1 == k then some v1 else getField rest k

/-- Property write `obj.k = v`: replaces the value at key `k` in place,
appending the key when absent. -/
def setField (e : JObj) (k : String) (v : JVal) : JObj :=
  if e.any (fun kv => kv.1 == k) then
    e.map (fun kv => if kv.1 == k then (kv.1, v) else kv)
  else e ++ [(k, v)]

/-- `Array.prototype.findIndex`. -/
def findIndex {α : Type} (p : α → Bool) : List α → Option Nat
  | [] => none
  | x :: xs => if p x then some 0 else (findIndex p xs).map (· + 1)

/-- In-place element mutation at an index. -/
def modifyAt {α : Type} (f : α → α) : Nat → List α → List α
  | _, [] => []
  | 0, x :: xs => f x :: xs
  | n + 1, x :: xs => x :: modifyAt f n xs

/-- `updateLogEntry` on the parsed file: find the first entry whose
`sessionId` equals the target, replace its `summary_text` and rewrite
the file with the re-serialized entries; throw the not-found error when
no entry matches (before any write). -/
def updateLogEntry (entries : List JObj) (sessionId newSummaryText : String) :
    Except String (List JObj) :=
  match findIndex
      (fun e => getField e "sessionId" == some (JVal.str sessionId)) entries with
  | none => Except.error "Log entry not found."
  | some i =>
    Except.ok
      (modifyAt (fun e => setField e "summary_text" (JVal.str newSummaryText))
        i entries)

/-- The enclosing try/catch of `updateLogEntry`: on error the file is
left as it was and the error banner is shown (`true`); on success the
rewritten content replaces the file. -/
def runUpdateLogEntry (file : List JObj) (sessionId newSummaryText : String) :
    List JObj × Bool :=
  match updateLogEntry file sessionId newSummaryText with
  | Except.error _ => (file, true)
  | Except.ok newFile => (newFile, false)

theorem findIndex_append_first {α : Type} (p : α → Bool) (pre : List α)
    (x : α) (post : List α) (hpre : ∀ y ∈ pre, p y = false)
    (hx : p x = true) :
    findIndex p (pre ++ x :: post) = some pre.length := by
  induction pre with
  | nil => simp [findIndex, hx]
  | cons a as ih =>
    have ha : p a = false := hpre a (List.mem_cons_self a as)
    simp [findIndex, ha,
      ih (fun y hy => hpre y (List.mem_cons_of_mem a hy))]

theorem findIndex_none {α : Type} (p : α → Bool) (l : List α)
    (h : ∀ x ∈ l, p x = false) : findIndex p l = none := by
  induction l with
  | nil => rfl
  | cons a as ih =>
    simp [findIndex, h a (List.mem_cons_self a as),
      ih (fun x hx => h x (List.mem_cons_of_mem a hx))]

theorem modifyAt_append {α : Type} (f : α → α) (pre : List α) (x : α)
    (post : List α) :
    modifyAt f pre.length (pre ++ x :: post) = pre ++ f x :: post := by
  induction pre with
  | nil => rfl
  | cons a as ih => simp [modifyAt, ih]

theorem getField_cons (kv : String × JVal) (rest : JObj) (k : String) :
    getField (kv :: rest) k
      = if kv.1 == k then some kv.2 else getField rest k := by
  cases kv
  rfl

theorem getField_map_replace (e : JObj) (k : String) (v : JVal)
    (hany : e.any (fun kv => kv.1 == k) = true) :
    getField (e.map (fun kv => if kv.1 == k then (kv.1, v) else kv)) k
      = some v := by
  induction e with
  | nil => simp at hany
  | cons kv rest ih =>
    rw [List.map_cons]
    by_cases hk : (kv.1 == k) = true
    · rw [if_pos hk, getField_cons]
      simp [hk]
    · rw [if_neg hk, getField_cons, if_neg hk]
      apply ih
      rcases List.any_eq_true.mp hany with ⟨y, hy, hpy⟩
      rcases List.mem_cons.mp hy with rfl | hy2
      · exact absurd hpy hk
      · exact List.any_eq_true.mpr ⟨y, hy2, hpy⟩

theorem getField_map_other (e : JObj) (k k2 : String) (v : JVal)
    (hne : ¬(k2 = k)) :
    getField (e.map (fun kv => if kv.1 == k then (kv.1, v) else kv)) k2
      = getField e k2 := by
  induction e with
  | nil => rfl
  | cons kv rest ih =>
    rw [List.map_cons, getField_cons kv rest k2]
    by_cases hk : (kv.1 == k) = true
    · have hkeq : kv.1 = k := by simpa using hk
      have hk2 : (kv.1 == k2) = false := by
        rw [hkeq]
        simp only [beq_eq_false_iff_ne, ne_eq]
        exact fun hcc => hne hcc.symm
      rw [if_pos hk, getField_cons]
      simp only [hk2]
      simp only [Bool.false_eq_true, if_false]
      exact ih
    · rw [if_neg hk, getField_cons]
      by_cases hk2 : (kv.1 == k2) = true
      · simp [hk2]
      · simp only [hk2, Bool.false_eq_true, if_false]
        exact ih

theorem getField_append_other (e : JObj) (k k2 : String) (v : JVal)
    (hne : ¬(k2 = k)) :
    getField (e ++ [(k, v)]) k2 = getField e k2 := by
  induction e with
  | nil =>
    show getField [(k, v)] k2 = none
    rw [getField_cons]
    have hkk : ((k, v).1 == k2) = false := by
      simp only [beq_eq_false_iff_ne, ne_eq]
      exact fun hcc => hne hcc.symm
    simp only [hkk, Bool.false_eq_true, if_false]
    rfl
  | cons kv rest ih =>
    rw [List.cons_append, getField_cons, getField_cons]
    by_cases hk2 : (kv.1 == k2) = true
    · simp [hk2]
    · simp [hk2, ih]

theorem getField_append_absent (e : JObj) (k : String) (v : JVal)
    (habs : ∀ kv ∈ e, (kv.1 == k) = false) :
    getField (e ++ [(k, v)]) k = some v := by
  induction e with
  | nil =>
    show getField [(k, v)] k = some v
    rw [getField_cons]
    simp
  | cons kv rest ih =>
    rw [List.cons_append, getField_cons,
      if_neg (by simp [habs kv (List.mem_cons_self kv rest)])]
    exact ih (fun kv2 h2 => habs kv2 (List.mem_cons_of_mem kv h2))

theorem getField_setField_same (e : JObj) (k : String) (v : JVal) :
    getField (setField e k v) k = some v := by
  unfold setField
  by_cases hany : e.any (fun kv => kv.1 == k) = true
  · rw [if_pos hany]
    exact getField_map_replace e k v hany
  · rw [if_neg hany]
    refine getField_append_absent e k v ?_
    intro kv hkv
    by_contra hc
    exact hany (List.any_eq_true.mpr ⟨kv, hkv, by simpa using hc⟩)

theorem getField_setField_other (e : JObj) (k k2 : String) (v : JVal)
    (hne : ¬(k2 = k)) : getField (setField e k v) k2 = getField e k2 := by
  unfold setField
  split
  · exact getField_map_other e k k2 v hne
  · exact getField_append_other e k k2 v hne

/-- C5: on a file parseable as one JSON entry per line, `updateLogEntry`
replaces `summary_text` on the first entry whose `sessionId` equals the
target — preserving that entry's other fields, unknown ones included,
and every other entry verbatim — and when no entry matches it fails with
the not-found error, attempting no write, so the file content is
unchanged. -/
theorem updateLogEntry_spec (pre post : List JObj) (e : JObj)
    (sid newText : String)
    (hpre : ∀ e2 ∈ pre, ¬(getField e2 "sessionId" = some (JVal.str sid)))
    (hmatch : getField e "sessionId" = some (JVal.str sid)) :
    (updateLogEntry (pre ++ e :: post) sid newText
      = Except.ok (pre ++ setField e "summary_text" (JVal.str newText) :: post))
  ∧ (runUpdateLogEntry (pre ++ e :: post) sid newText
      = (pre ++ setField e "summary_text" (JVal.str newText) :: post, false))
  ∧ getField (setField e "summary_text" (JVal.str newText)) "summary_text"
      = some (JVal.str newText)
  ∧ (∀ k, ¬(k = "summary_text") →
      getField (setField e "summary_text" (JVal.str newText)) k
        = getField e k)
  ∧ (∀ file : List JObj,
      (∀ e2 ∈ file, ¬(getField e2 "sessionId" = some (JVal.str sid))) →
      updateLogEntry file sid newText = Except.error "Log entry not found."
      ∧ runUpdateLogEntry file sid newText = (file, true)) := by
  have hfind : findIndex
      (fun e2 => getField e2 "sessionId" == some (JVal.str sid))
      (pre ++ e :: post) = some pre.length := by
    apply findIndex_append_first
    · intro y hy
      simpa using hpre y hy
    · simpa using hmatch
  have hok : updateLogEntry (pre ++ e :: post) sid newText
      = Except.ok (pre ++ setField e "summary_text" (JVal.str newText) :: post) := by
    unfold updateLogEntry
    rw [hfind]
    show Except.ok (modifyAt
        (fun e2 => setField e2 "summary_text" (JVal.str newText))
        pre.length (pre ++ e :: post)) = _
    rw [modifyAt_append]
  refine ⟨hok, ?_, ?_, ?_, ?_⟩
  · unfold runUpdateLogEntry
    rw [hok]
  · exact getField_setField_same e "summary_text" (JVal.str newText)
  · intro k hk
    exact getField_setField_other e "summary_text" k (JVal.str newText) hk
  · intro file hfile
    have hnone : findIndex
        (fun e2 => getField e2 "sessionId" == some (JVal.str sid)) file
        = none := by
      apply findIndex_none
      intro x hx
      simpa using hfile x hx
    have herr : updateLogEntry file sid newText
        = Except.error "Log entry not found." := by
      unfold updateLogEntry
      rw [hnone]
    refine ⟨herr, ?_⟩
    unfold runUpdateLogEntry
    rw [herr]

theorem updateLogEntry_spec_witness :
    updateLogEntry
        [[("type", JVal.str "note"), ("sessionId", JVal.str "sid-a"),
          ("end_time", JVal.str "100"), ("summary_text", JVal.str "first"),
          ("extra_field", JVal.num 7)],
         [("type", JVal.str "session"), ("sessionId", JVal.str "sid-b"),
          ("end_time", JVal.str "200"), ("summary_text", JVal.str "second")]]
        "sid-b" "edited"
      = Except.ok
        [[("type", JVal.str "note"), ("sessionId", JVal.str "sid-a"),
          ("end_time", JVal.str "100"), ("summary_text", JVal.str "first"),
          ("extra_field", JVal.num 7)],
         [("type", JVal.str "session"), ("sessionId", JVal.str "sid-b"),
          ("end_time", JVal.str "200"), ("summary_text", JVal.str "edited")]]
  ∧ runUpdateLogEntry
        [[("type", JVal.str "note"), ("sessionId", JVal.str "sid-a"),
          ("end_time", JVal.str "100"), ("summary_text", JVal.str "first"),
          ("extra_field", JVal.num 7)]]
        "sid-b" "edited"
      = ([[("type", JVal.str "note"), ("sessionId", JVal.str "sid-a"),
           ("end_time", JVal.str "100"), ("summary_text", JVal.str "first"),
           ("extra_field", JVal.num 7)]], true) := by
  have h := updateLogEntry_spec
    [[("type", JVal.str "note"), ("sessionId", JVal.str "sid-a"),
      ("end_time", JVal.str "100"), ("summary_text", JVal.str "first"),
      ("extra_field", JVal.num 7)]]
    []
    [("type", JVal.str "session"), ("sessionId", JVal.str "sid-b"),
     ("end_time", JVal.str "200"), ("summary_text", JVal.str "second")]
    "sid-b" "edited" (by decide) (by decide)
  exact ⟨h.1, (h.2.2.2.2 _ (by decide)).2⟩

/-- `appendLogToFile`'s write: old content, then a newline separator
only when the file is non-empty, then the serialized entry. -/
def appendLogToFile (oldContent : List Char) (line : List Char) : List Char :=
  oldContent ++ (if oldContent.length > 0 then ['\n'] else []) ++ line

def appendAll (lines : List (List Char)) (content : List Char) : List Char :=
  lines.foldl appendLogToFile content

/-- `content.split` on the newline character. -/
def splitOnNewline : List Char → List (List Char)
  | [] => [[]]
  | c :: cs =>
    if c = '\n' then [] :: splitOnNewline cs
    else
      match splitOnNewline cs with
      | [] => [[c]]
      | l :: ls => (c :: l) :: ls

def joinLines : List (List Char) → List Char
  | [] => []
  | l :: ls =>
    match ls with
    | [] => l
    | _ :: _ => l ++ '\n' :: joinLines ls

/-- Sort key of the log display: the parsed `end_time` timestamp. -/
def endTimeKey (e : JObj) : Int :=
  match getField e "end_time" with
  | some (JVal.str s) =>
    match parseDateMs s with
    | some t => t
    | none => 0
  | _ => 0

/-- Stable insertion modelling `Array.prototype.sort` with the
comparator `dateB - dateA` (descending by `end_time`). -/
def insertByKey (e : JObj) : List JObj → List JObj
  | [] => [e]
  | x :: xs =>
    if endTimeKey x ≤ endTimeKey e then e :: x :: xs
    else x :: insertByKey e xs

def sortLogsDesc : List JObj → List JObj
  | [] => []
  | e :: es => insertByKey e (sortLogsDesc es)

def parseLines (par : List Char → Option JObj) :
    List (List Char) → Option (List JObj)
  | [] => some []
  | l :: ls =>
    match par l, parseLines par ls with
    | some e, some es => some (e :: es)
    | _, _ => none

/-- `loadLogs`' read path under granted permission: content empty after
trimming renders zero entries; otherwise split the trimmed content on
newlines, parse every line (any parse failure is a load error, `none`)
and sort descending by `end_time`. -/
def loadLogs (par : List Char → Option JObj) (content : List Char) :
    Option (List JObj) :=
  if trimChars content = [] then some []
  else
    match parseLines par (splitOnNewline (trimChars content)) with
    | none => none
    | some es => some (sortLogsDesc es)

theorem joinLines_append_cons (a b : List Char) (ls : List (List Char)) :
    joinLines ((a ++ b) :: ls) = a ++ joinLines (b :: ls) := by
  cases ls with
  | nil => rfl
  | cons x xs => simp [joinLines, List.append_assoc]

theorem appendAll_eq_joinLines (ls : List (List Char)) :
    ∀ content : List Char, content ≠ [] →
      appendAll ls content = joinLines (content :: ls) := by
  induction ls with
  | nil => intro c hc; rfl
  | cons l ls2 ih =>
    intro c hc
    have h1 : appendLogToFile c l = c ++ '\n' :: l := by
      unfold appendLogToFile
      rw [if_pos (by cases c with
        | nil => exact absurd rfl hc
        | cons d ds => simp)]
      simp [List.append_assoc]
    show appendAll ls2 (appendLogToFile c l) = _
    rw [h1, ih (c ++ '\n' :: l) (by simp)]
    rw [show (c ++ '\n' :: l) = (c ++ '\n' :: l) from rfl]
    calc joinLines ((c ++ '\n' :: l) :: ls2)
        = c ++ joinLines (('\n' :: l) :: ls2) := joinLines_append_cons c _ ls2
      _ = c ++ ('\n' :: joinLines (l :: ls2)) := by
          rw [show ('\n' :: l) = ['\n'] ++ l from rfl,
            joinLines_append_cons ['\n'] l ls2]
          rfl
      _ = joinLines (c :: l :: ls2) := rfl

theorem splitOnNewline_no_newline (l : List Char) (h : '\n' ∉ l) :
    splitOnNewline l = [l] := by
  induction l with
  | nil => rfl
  | cons c cs ih =>
    have hc : ¬(c = '\n') := fun hcc => h (hcc ▸ List.mem_cons_self c cs)
    have hcs : '\n' ∉ cs := fun hm => h (List.mem_cons_of_mem c hm)
    simp [splitOnNewline, hc, ih hcs]

theorem splitOnNewline_append (l : List Char) (h : '\n' ∉ l)
    (rest : List Char) :
    splitOnNewline (l ++ '\n' :: rest) = l :: splitOnNewline rest := by
  induction l with
  | nil => simp [splitOnNewline]
  | cons c cs ih =>
    have hc : ¬(c = '\n') := fun hcc => h (hcc ▸ List.mem_cons_self c cs)
    have hcs : '\n' ∉ cs := fun hm => h (List.mem_cons_of_mem c hm)
    simp [splitOnNewline, hc, ih hcs]

theorem splitOnNewline_joinLines (ls : List (List Char)) (hne : ls ≠ [])
    (hnl : ∀ l ∈ ls, '\n' ∉ l) :
    splitOnNewline (joinLines ls) = ls := by
  induction ls with
  | nil => exact absurd rfl hne
  | cons l ls2 ih =>
    cases ls2 with
    | nil =>
      show splitOnNewline (joinLines [l]) = [l]
      exact splitOnNewline_no_newline l (hnl l (by simp))
    | cons x xs =>
      show splitOnNewline (l ++ '\n' :: joinLines (x :: xs)) = _
      rw [splitOnNewline_append l (hnl l (by simp)),
        ih (by simp) (fun y hy => hnl y (List.mem_cons_of_mem l hy))]

theorem getLastD_append_right (a b : List Char) (hb : b ≠ []) :
    (a ++ b).getLastD 'x' = b.getLastD 'x' := by
  rw [List.getLastD_eq_getLast?, List.getLastD_eq_getLast?,
    List.getLast?_append]
  cases hb2 : b.getLast? with
  | none => exact absurd (List.getLast?_eq_none_iff.mp hb2) hb
  | some x => rfl

theorem dropWhile_cons_of_false {p : Char → Bool} (c : Char) (cs : List Char)
    (hc : p c = false) : (c :: cs).dropWhile p = c :: cs := by
  simp [List.dropWhile_cons, hc]

theorem trimChars_eq_self (l : List Char) (hl : l ≠ [])
    (hhead : isJsWhitespace (l.headD 'x') = false)
    (hlast : isJsWhitespace (l.getLastD 'x') = false) :
    trimChars l = l := by
  unfold trimChars
  obtain ⟨c, cs, rfl⟩ := List.exists_cons_of_ne_nil hl
  rw [dropWhile_cons_of_false c cs hhead]
  have hrev : (c :: cs).reverse ≠ [] := by simp
  obtain ⟨d, ds, hds⟩ := List.exists_cons_of_ne_nil hrev
  have hd : isJsWhitespace d = false := by
    have h1 : (c :: cs).reverse.head? = some d := by rw [hds]; rfl
    rw [List.head?_reverse] at h1
    have h2 : (c :: cs).getLastD 'x' = d := by
      rw [List.getLastD_eq_getLast?, h1]
      rfl
    rw [← h2]
    exact hlast
  rw [hds, dropWhile_cons_of_false d ds hd, ← hds, List.reverse_reverse]

theorem joinLines_ne_nil (l : List Char) (ls : List (List Char))
    (hl : l ≠ []) : joinLines (l :: ls) ≠ [] := by
  cases ls with
  | nil => exact hl
  | cons x xs =>
    show l ++ '\n' :: joinLines (x :: xs) ≠ []
    simp

theorem joinLines_headD (l : List Char) (ls : List (List Char))
    (hl : l ≠ []) :
    (joinLines (l :: ls)).headD 'x' = l.headD 'x' := by
  obtain ⟨c, cs, rfl⟩ := List.exists_cons_of_ne_nil hl
  cases ls with
  | nil => rfl
  | cons x xs => rfl

theorem joinLines_getLastD_mem (ls : List (List Char)) (hne : ls ≠ [])
    (h : ∀ m ∈ ls, m ≠ []) :
    ∃ m ∈ ls, (joinLines ls).getLastD 'x' = m.getLastD 'x' := by
  induction ls with
  | nil => exact absurd rfl hne
  | cons l ls2 ih =>
    cases ls2 with
    | nil => exact ⟨l, by simp, rfl⟩
    | cons x xs =>
      obtain ⟨m, hm, heq⟩ :=
        ih (by simp) (fun m hm => h m (List.mem_cons_of_mem l hm))
      refine ⟨m, List.mem_cons_of_mem l hm, ?_⟩
      show (l ++ '\n' :: joinLines (x :: xs)).getLastD 'x' = _
      rw [← heq]
      have hj : joinLines (x :: xs) ≠ [] :=
        joinLines_ne_nil x xs (h x (by simp))
      rw [getLastD_append_right l ('\n' :: joinLines (x :: xs)) (by simp),
        show ('\n' :: joinLines (x :: xs)) = ['\n'] ++ joinLines (x :: xs)
          from rfl,
        getLastD_append_right ['\n'] (joinLines (x :: xs)) hj]

theorem trimChars_joinLines (ls : List (List Char)) (hne : ls ≠ [])
    (h : ∀ l ∈ ls, l ≠ [] ∧ isJsWhitespace (l.headD 'x') = false
        ∧ isJsWhitespace (l.getLastD 'x') = false) :
    trimChars (joinLines ls) = joinLines ls := by
  obtain ⟨l, ls2, rfl⟩ := List.exists_cons_of_ne_nil hne
  have hl := h l (by simp)
  apply trimChars_eq_self
  · exact joinLines_ne_nil l ls2 hl.1
  · rw [joinLines_headD l ls2 hl.1]
    exact hl.2.1
  · obtain ⟨m, hm, heq⟩ := joinLines_getLastD_mem (l :: ls2) (by simp)
      (fun m hm => (h m hm).1)
    rw [heq]
    exact (h m hm).2.2

theorem parseLines_map_ser (par : List Char → Option JObj)
    (ser : JObj → List Char) (es : List JObj)
    (hpar : ∀ e ∈ es, par (ser e) = some e) :
    parseLines par (es.map ser) = some es := by
  induction es with
  | nil => rfl
  | cons e es2 ih =>
    rw [List.map_cons]
    show (match par (ser e), parseLines par (es2.map ser) with
      | some e, some es => some (e :: es)
      | _, _ => none) = some (e :: es2)
    rw [hpar e (List.mem_cons_self e es2),
      ih (fun y hy => hpar y (List.mem_cons_of_mem e hy))]

theorem insertByKey_perm (e : JObj) (l : List JObj) :
    List.Perm (insertByKey e l) (e :: l) := by
  induction l with
  | nil => exact List.Perm.refl _
  | cons x xs ih =>
    unfold insertByKey
    split
    · exact List.Perm.refl _
    · exact (ih.cons x).trans (List.Perm.swap e x xs)

theorem sortLogsDesc_perm (es : List JObj) :
    List.Perm (sortLogsDesc es) es := by
  induction es with
  | nil => exact List.Perm.refl _
  | cons e es2 ih => exact (insertByKey_perm e _).trans (ih.cons e)

theorem insertByKey_sorted (e : JObj) (l : List JObj)
    (hl : List.Pairwise (fun a b => endTimeKey b ≤ endTimeKey a) l) :
    List.Pairwise (fun a b => endTimeKey b ≤ endTimeKey a)
      (insertByKey e l) := by
  induction l with
  | nil => simp [insertByKey]
  | cons x xs ih =>
    have hx := List.pairwise_cons.mp hl
    unfold insertByKey
    split
    · rename_i hxe
      refine List.pairwise_cons.mpr ⟨?_, hl⟩
      intro y hy
      rcases List.mem_cons.mp hy with rfl | hy2
      · exact hxe
      · exact le_trans (hx.1 y hy2) hxe
    · rename_i hxe
      refine List.pairwise_cons.mpr ⟨?_, ih hx.2⟩
      intro y hy
      rcases (insertByKey_perm e xs).mem_iff.mp hy with hy2
      rcases List.mem_cons.mp hy2 with rfl | hy3
      · exact le_of_lt (lt_of_not_le hxe)
      · exact hx.1 y hy3

theorem sortLogsDesc_sorted (es : List JObj) :
    List.Pairwise (fun a b => endTimeKey b ≤ endTimeKey a)
      (sortLogsDesc es) := by
  induction es with
  | nil => simp [sortLogsDesc]
  | cons e es2 ih => exact insertByKey_sorted e _ ih

/-- C6: appending N serialized entries to an initially empty file — the
newline separator inserted only when the file is already non-empty — and
then reading the file back parses exactly those N entries, one per
non-empty line, and returns them ordered most-recent-`end_time`-first
(sorted descending by `end_time`). -/
theorem loadLogs_appendAll (ser : JObj → List Char)
    (par : List Char → Option JObj) (es : List JObj)
    (hser : ∀ e ∈ es, ser e ≠ [] ∧ '\n' ∉ ser e
        ∧ isJsWhitespace ((ser e).headD 'x') = false
        ∧ isJsWhitespace ((ser e).getLastD 'x') = false)
    (hpar : ∀ e ∈ es, par (ser e) = some e) :
    loadLogs par (appendAll (es.map ser) []) = some (sortLogsDesc es)
  ∧ (sortLogsDesc es).length = es.length
  ∧ List.Perm (sortLogsDesc es) es
  ∧ List.Pairwise (fun a b => endTimeKey b ≤ endTimeKey a)
      (sortLogsDesc es) := by
  refine ⟨?_, (sortLogsDesc_perm es).length_eq, sortLogsDesc_perm es,
    sortLogsDesc_sorted es⟩
  cases es with
  | nil =>
    show loadLogs par (appendAll [] []) = some (sortLogsDesc [])
    rfl
  | cons e es2 =>
    have hprop : ∀ m ∈ (e :: es2).map ser, m ≠ []
        ∧ isJsWhitespace (m.headD 'x') = false
        ∧ isJsWhitespace (m.getLastD 'x') = false := by
      intro m hm
      rcases List.mem_map.mp hm with ⟨x, hx, rfl⟩
      exact ⟨(hser x hx).1, (hser x hx).2.2.1, (hser x hx).2.2.2⟩
    have hnlm : ∀ m ∈ (e :: es2).map ser, '\n' ∉ m := by
      intro m hm
      rcases List.mem_map.mp hm with ⟨x, hx, rfl⟩
      exact (hser x hx).2.1
    have hmapne : (e :: es2).map ser ≠ [] := by simp
    have h0 : appendAll ((e :: es2).map ser) []
        = joinLines ((e :: es2).map ser) := by
      rw [List.map_cons]
      show appendAll (es2.map ser) (appendLogToFile [] (ser e)) = _
      have hfirst : appendLogToFile [] (ser e) = ser e := by
        unfold appendLogToFile
        simp
      rw [hfirst,
        appendAll_eq_joinLines (es2.map ser) (ser e) (hser e (by simp)).1]
    have htrim : trimChars (joinLines ((e :: es2).map ser))
        = joinLines ((e :: es2).map ser) :=
      trimChars_joinLines _ hmapne hprop
    have hjne : joinLines ((e :: es2).map ser) ≠ [] := by
      rw [List.map_cons]
      exact joinLines_ne_nil _ _ (hser e (by simp)).1
    have hsplit : splitOnNewline (joinLines ((e :: es2).map ser))
        = (e :: es2).map ser :=
      splitOnNewline_joinLines _ hmapne hnlm
    have hparse : parseLines par ((e :: es2).map ser) = some (e :: es2) :=
      parseLines_map_ser par ser _ hpar
    rw [h0]
    unfold loadLogs
    rw [htrim, if_neg hjne, hsplit, hparse]

def logEntryA : JObj :=
  [("type", JVal.str "session"), ("sessionId", JVal.str "sa"),
   ("end_time", JVal.str "100"), ("summary_text", JVal.str "one")]

def logEntryB : JObj :=
  [("type", JVal.str "session"), ("sessionId", JVal.str "sb"),
   ("end_time", JVal.str "300"), ("summary_text", JVal.str "two")]

def logEntryC : JObj :=
  [("type", JVal.str "note"), ("sessionId", JVal.str "sc"),
   ("end_time", JVal.str "200"), ("summary_text", JVal.str "three")]

/-- Injective single-line encoding instantiating the serialization
parameters of `loadLogs_appendAll` at concrete entries. -/
def serSample (e : JObj) : List Char :=
  if e = logEntryA then ['A'] else if e = logEntryB then ['B']
  else if e = logEntryC then ['C'] else ['Z']

def parSample (l : List Char) : Option JObj :=
  if l = ['A'] then some logEntryA else if l = ['B'] then some logEntryB
  else if l = ['C'] then some logEntryC else none

theorem loadLogs_appendAll_witness :
    loadLogs parSample
        (appendAll ([logEntryA, logEntryB, logEntryC].map serSample) [])
      = some [logEntryB, logEntryC, logEntryA]
  ∧ (sortLogsDesc [logEntryA, logEntryB, logEntryC]).length = 3 := by
  have h := loadLogs_appendAll serSample parSample
    [logEntryA, logEntryB, logEntryC] (by decide) (by decide)
  refine ⟨?_, ?_⟩
  · rw [h.1]
    decide
  · rw [h.2.1]
    rfl

/-! ## Log submission (`saveLog`, `home.js`) -/

inductive SaveLogResult where
  | noOp
  | fault
  | appended (entry : JObj) (newState : StorageState)
deriving DecidableEq, Repr

def jvalOfOptStr : Option String → JVal
  | none => JVal.null
  | some s => JVal.str s

/-- The session entry `saveLog` builds: `start_time` is the stored
`endTime` minus `duration` minutes. -/
def buildSessionEntry (sessionId : Option String) (duration : Nat)
    (endMs : Int) (summaryText : String) : JObj :=
  [("type", JVal.str "session"),
   ("sessionId", jvalOfOptStr sessionId),
   ("start_time", JVal.str (dateToISOString (endMs - duration * 60 * 1000))),
   ("end_time", JVal.str (dateToISOString endMs)),
   ("duration", JVal.num duration),
   ("summary_text", JVal.str summaryText)]

/-- `saveLog`: return immediately when the trimmed summary is empty;
otherwise read `duration`, `endTime` and `sessionId` from storage, build
the session entry, append it to the log file and reset to the start
state.  A stored `endTime` the host cannot parse would make the date
arithmetic throw (`fault`). -/
def saveLog (s : StorageState) (summaryText : String) : SaveLogResult :=
  if (trimChars summaryText.data).length = 0 then SaveLogResult.noOp
  else
    match s.endTime.bind parseDateMs with
    | none => SaveLogResult.fault
    | some endMs =>
      SaveLogResult.appended
        (buildSessionEntry s.sessionId s.duration endMs summaryText)
        (resetToStartState s)

theorem getField_cons_ne (k1 : String) (v1 : JVal) (rest : JObj)
    (k : String) (h : (k1 == k) = false) :
    getField ((k1, v1) :: rest) k = getField rest k := by
  rw [getField_cons]
  simp [h]

theorem getField_cons_eq (k1 : String) (v1 : JVal) (rest : JObj)
    (k : String) (h : (k1 == k) = true) :
    getField ((k1, v1) :: rest) k = some v1 := by
  rw [getField_cons]
  simp [h]

/-- C10: `saveLog` enforces only non-emptiness, not the 50-word gate: an
all-whitespace summary returns without appending anything or touching
the state, while any summary with at least one non-whitespace character
— no matter how few words — gets a session `LogEntry` built from the
stored session fields, appended, and is followed by the reset to the
start state; no conjunct below constrains the word count. -/
theorem saveLog_spec (s : StorageState) (t : String) (iso : String)
    (endMs : Int) (hend : s.endTime = some iso)
    (hparse : parseDateMs iso = some endMs) :
    ((trimChars t.data).length = 0 → saveLog s t = SaveLogResult.noOp)
  ∧ ((trimChars t.data).length ≠ 0 →
      saveLog s t = SaveLogResult.appended
        (buildSessionEntry s.sessionId s.duration endMs t)
        (resetToStartState s)
      ∧ getField (buildSessionEntry s.sessionId s.duration endMs t)
          "summary_text" = some (JVal.str t)
      ∧ getField (buildSessionEntry s.sessionId s.duration endMs t) "type"
          = some (JVal.str "session")
      ∧ (resetToStartState s).timerState = "start") := by
  constructor
  · intro h0
    unfold saveLog
    rw [if_pos h0]
  · intro hne
    refine ⟨?_, ?_, ?_, rfl⟩
    · unfold saveLog
      rw [if_neg hne, hend]
      show (match parseDateMs iso with
        | none => SaveLogResult.fault
        | some endMs =>
          SaveLogResult.appended
            (buildSessionEntry s.sessionId s.duration endMs t)
            (resetToStartState s)) = _
      rw [hparse]
    · rw [buildSessionEntry,
        getField_cons_ne _ _ _ _ (by decide),
        getField_cons_ne _ _ _ _ (by decide),
        getField_cons_ne _ _ _ _ (by decide),
        getField_cons_ne _ _ _ _ (by decide),
        getField_cons_ne _ _ _ _ (by decide),
        getField_cons_eq _ _ _ _ (by decide)]
    · rw [buildSessionEntry, getField_cons_eq _ _ _ _ (by decide)]

theorem saveLog_spec_witness :
    saveLog ⟨"end", some "600000", 1, some "sid-9", "few words", "n", []⟩ "   "
      = SaveLogResult.noOp
  ∧ saveLog ⟨"end", some "600000", 1, some "sid-9", "few words", "n", []⟩
        "two words"
      = SaveLogResult.appended
          (buildSessionEntry (some "sid-9") 1 600000 "two words")
          (resetToStartState
            ⟨"end", some "600000", 1, some "sid-9", "few words", "n", []⟩)
  ∧ (summaryWords "two words").length = 2 := by
  have h1 := saveLog_spec
    ⟨"end", some "600000", 1, some "sid-9", "few words", "n", []⟩
    "   " "600000" 600000 rfl (by decide)
  have h2 := saveLog_spec
    ⟨"end", some "600000", 1, some "sid-9", "few words", "n", []⟩
    "two words" "600000" 600000 rfl (by decide)
  exact ⟨h1.1 (by decide), (h2.2 (by decide)).1, by decide⟩
